import Mathlib

/-!
Verification of the `MariaDB` query-builder class from
`src/server/mariadb.server.ts` (dokuzbit/db-utils).

The file shallowly embeds the pure core of the class — the identifier
protector `protectFieldName`, the WHERE compiler `buildWhere` /
`buildWhereParams`, the SELECT statement assembler, the chunk planner
`getChunk`, and the synchronous validation / control-flow skeletons of
`insert`, `update`, `objectUpdate`, `query`, `execute` and `batch` —
and proves the documented properties about these embeddings.

Strings are modelled with Lean `String` (backed by `List Char`);
JavaScript record values are modelled by the `Val` type; JS objects by
association lists in insertion order (JS string-keyed objects iterate
in insertion order).  Asynchronous driver calls are modelled by passing
the driver's response in as an `Except` value; an `Except.error` stands
for a rejected promise (a thrown error), and each operation records the
statements/events it issues in an explicit trace.  Result
post-processing that no verified property mentions (the `limit 1`
single-row unwrap and column-metadata normalisation of `query`) is not
modelled.
-/

namespace MariaDB

/-- A bind value (JS `any` restricted to the cases the library binds). -/
inductive Val where
  | int (n : Int)
  | str (s : String)
  | null
  | undef
deriving DecidableEq, Repr

/-- A JS object in key-insertion order: `Record<string, any>`. -/
abbrev Rec := List (String × Val)

/-! ## IdentifierProtector: `protectFieldName` (source lines 612–640) -/

/-- The backtick quoting character. -/
def btick : Char := Char.ofNat 96

/-- The fixed reserved-word list of `protectFieldName` (source lines 614–620). -/
def reservedWords : List String :=
  ["not", "order", "group", "limit", "offset", "by", "where", "from", "select",
   "update", "delete", "add", "alter", "column", "table", "into", "set", "values",
   "as", "and", "or", "join", "on", "having", "case", "when", "then", "else", "end",
   "like", "in", "between", "is", "null", "asc", "desc", "distinct", "all", "exists",
   "any", "some", "inner", "outer", "left", "right", "full", "cross", "using", "natural"]

/-- `[^a-zA-Z0-9_]` membership test: `c` is a word character. -/
def isWordChar (c : Char) : Bool :=
  c.isAlphanum || c == '_'

/-- `reservedWords.includes(fieldName.toLowerCase())`. -/
def isReserved (s : List Char) : Bool :=
  (reservedWords.map String.data).contains (s.map Char.toLower)

/-- JS `"x.y.z".split('.')` on character lists. -/
def splitDot : List Char → List (List Char)
  | [] => [[]]
  | c :: rest =>
    if c = '.' then [] :: splitDot rest
    else (c :: (splitDot rest).headD []) :: (splitDot rest).tail

/-- JS `parts.join('.')` on character lists. -/
def joinDot : List (List Char) → List Char
  | [] => []
  | [p] => p
  | p :: ps => p ++ '.' :: joinDot ps

/-- `protectFieldName` on character lists (source lines 612–640):
already-quoted tokens pass through; dotted paths are protected
component-wise; reserved words and tokens with characters outside
`[A-Za-z0-9_]` are wrapped in backticks; everything else is unchanged.
The `fuel` argument only bounds the recursion depth of the dotted-path
branch; every part produced by a split is strictly shorter than the
input, so `fuel = length` always suffices (`protectAux_stable` below). -/
def protectAux (fuel : Nat) (s : List Char) : List Char :=
  if s.head? = some btick ∧ s.getLast? = some btick then s
  else if '.' ∈ s then
    match fuel with
    | 0 => s
    | fuel' + 1 => joinDot ((splitDot s).map (protectAux fuel'))
  else if isReserved s ∨ s.any (fun c => !isWordChar c) then
    btick :: s ++ [btick]
  else s

/-- `protectFieldName` on character lists with the canonical fuel. -/
def protectL (s : List Char) : List Char :=
  protectAux s.length s

/-- String-level `protectFieldName`. -/
def protectFieldName (s : String) : String :=
  String.mk (protectL s.data)

/-! ## WhereCompiler: `buildWhere` / `buildWhereParams` (source lines 465–532)

The runtime shapes a `Where` value can take (`string | string[] |
Record<string,any> | Record<string,any>[]`, plus `undefined`/`null`) are
embedded as a tagged union mirroring the dynamic type tests of the
source.  An array cell can hold a raw string, an object, or `null`
(`typeof null === 'object'`, so a leading `null` still selects the
object-array branch, exactly as in the source). -/

/-- One element of a WHERE array. -/
inductive WElem where
  | s (v : String)
  | m (fields : Rec)
  | nul
deriving DecidableEq, Repr

/-- The runtime `Where` union (`undef` covers `undefined`/`null`). -/
inductive Where where
  | undef
  | str (s : String)
  | obj (fields : Rec)
  | arr (elems : List WElem)
deriving DecidableEq, Repr

/-- Explicit `whereParams` override: scalar or array (`any | any[]`). -/
inductive WParams where
  | single (v : Val)
  | list (l : List Val)
deriving DecidableEq, Repr

/-- JS truthiness of a `Where` value (`if (!where) ...`). -/
def whereTruthy : Where → Bool
  | .undef => false
  | .str s => s ≠ ""
  | .obj _ => true
  | .arr _ => true

/-- JS `Array.prototype.join(sep)` (element coercion is done by callers). -/
def joinSep (sep : String) : List String → String
  | [] => ""
  | [x] => x
  | x :: xs => x ++ sep ++ joinSep sep xs

/-- JS string coercion of an array cell under `Array.prototype.join`
(objects print as `[object Object]`, `null` as the empty string). -/
def elemJoinStr : WElem → String
  | .s v => v
  | .m _ => "[object Object]"
  | .nul => ""

/-- `String(where)` for an array value: `join(',')`. -/
def jsArrayToString (l : List WElem) : String :=
  joinSep "," (l.map elemJoinStr)

/-- JS `Object.keys` of a string: its index strings (`'0'`, `'1'`, …). -/
def jsStringKeys (v : String) : List String :=
  (List.range v.length).map (fun i => toString i)

/-- The per-mapping clause of the object-array branch of `buildWhere`
(source lines 492–502): `null` maps to `''`, an object to its
parenthesised AND-joined equality clauses. -/
def objClause : WElem → String
  | .nul => ""
  | .s v =>
    if v = "" then ""
    else "(" ++ joinSep " AND " ((jsStringKeys v).map (fun k => protectFieldName k ++ " = ?")) ++ ")"
  | .m fields =>
    "(" ++ joinSep " AND " (fields.map (fun kv => protectFieldName kv.1 ++ " = ?")) ++ ")"

/-- `buildWhere` (source lines 465–508).  A non-empty array is compiled
by its first element's runtime type; the empty array falls through all
branches to the final `String(where)` coercion. -/
def buildWhere : Where → String
  | .undef => "1 = 1"
  | .str s => if s = "" then "1 = 1" else s
  | .obj fields =>
    joinSep " AND " (fields.map (fun kv => protectFieldName kv.1 ++ " = ?"))
  | .arr [] => jsArrayToString []
  | .arr (WElem.s v :: rest) => joinSep " AND " ((WElem.s v :: rest).map elemJoinStr)
  | .arr (e :: rest) =>
    joinSep " OR " (((e :: rest).map objClause).filter (fun c => c ≠ ""))

/-- `Object.values` of an array cell as used by `buildWhereParams`
(strings decompose into their characters, `null` contributes nothing). -/
def elemVals : WElem → List Val
  | .nul => []
  | .s v => if v = "" then [] else v.data.map (fun c => Val.str (String.mk [c]))
  | .m fields => fields.map (fun kv => kv.2)

/-- `buildWhereParams` (source lines 510–532). -/
def buildWhereParams (w : Where) (ov : Option WParams) : List Val :=
  if whereTruthy w = false then []
  else
    match ov with
    | some (WParams.list l) => l
    | some (WParams.single v) => [v]
    | none =>
      match w with
      | .obj fields => fields.map (fun kv => kv.2)
      | .arr (WElem.s _ :: _) => []
      | .arr (e :: rest) => (e :: rest).flatMap elemVals
      | _ => []

/-- Number of `?` characters in a compiled SQL text. -/
def countQ (s : String) : Nat :=
  s.data.count '?'

/-- An array cell that is a mapping with `?`-free keys, or `null`
(used to state the placeholder/parameter parity property over the
object-array WHERE shape). -/
def elemObjOk : WElem → Bool
  | .nul => true
  | .m fields => fields.all (fun kv => !kv.1.data.contains '?')
  | .s _ => false

/-! ## ChunkPlanner: `getChunk` (source lines 417–432) -/

/-- End position of the window starting at position `i` over `n` rows:
`i + 1000 - 1 < n - 1 ? i + 1000 - 1 : n - 1` (source line 425). -/
def winEnd (n i : Nat) : Nat :=
  if i + 1000 - 1 < n - 1 then i + 1000 - 1 else n - 1

/-- Position windows pushed by the `for (let i = 20; ...; i += 1000)`
loop of `getChunk`. -/
def tailWindows (n i : Nat) : List (Nat × Nat) :=
  if i < n then (i, winEnd n i) :: tailWindows n (i + 1000) else []
termination_by n - i
decreasing_by
  omega

/-- All position windows of `getChunk` over `n` rows: the first window
`[0, (n > 20 ? 19 : n-1)]` followed by the loop windows. -/
def posWindows (n : Nat) : List (Nat × Nat) :=
  (0, if 20 < n then 19 else n - 1) :: tailWindows n 20

/-- Number of positions a window `(start, end)` covers. -/
def winSize (w : Nat × Nat) : Nat :=
  w.2 + 1 - w.1

/-- Id pairs pushed by the `getChunk` loop over the fetched `data`
(the id of each row, in query order). -/
def tailChunk (data : List Int) (i : Nat) : List (Int × Int) :=
  if i < data.length then
    (data.getD i 0, data.getD (winEnd data.length i) 0) :: tailChunk data (i + 1000)
  else []
termination_by data.length - i
decreasing_by
  omega

/-- The chunk table built by `getChunk` on a cache miss (source lines
420–426); the caller guarantees `data` is non-empty. -/
def buildChunkTable (data : List Int) : List (Int × Int) :=
  (data.getD 0 0, data.getD (if 20 < data.length then 19 else data.length - 1) 0)
    :: tailChunk data 20

/-- The `chunk` selector: a window index or the count-only sentinel `'?'`. -/
inductive ChunkSel where
  | num (k : Nat)
  | q
deriving DecidableEq, Repr

/-- The tail of `getChunk` (source lines 429–431): `'?' >= length` is a
`NaN` comparison and is false, so `'?'` reaches the sentinel check. -/
def chunkLookup (tbl : List (Int × Int)) : ChunkSel → Option Int × Option Int × Nat
  | ChunkSel.q => (none, none, tbl.length)
  | ChunkSel.num k =>
    if tbl.length ≤ k then (none, none, tbl.length)
    else (some (tbl.getD k (0, 0)).1, some (tbl.getD k (0, 0)).2, tbl.length)

/-- `getChunk` (source lines 417–432).  `cache` is the external
memoization store keyed by `'chunk' + sql`; `idRows` is the id column of
the rows the base query would return.  Returns the
`(start, end, total)` triple, the list of SQL texts issued against the
pool, and the updated cache.  An empty `idRows` models the thrown error
of the `data[0].id === undefined` guard. -/
def getChunk (cache : String → Option (List (Int × Int))) (idRows : List Int)
    (sql : String) (ch : ChunkSel) :
    Except String (Option Int × Option Int × Nat) × List String ×
      (String → Option (List (Int × Int))) :=
  match cache ("chunk" ++ sql) with
  | some tbl => (Except.ok (chunkLookup tbl ch), [], cache)
  | none =>
    if idRows.length = 0 then (Except.error "id is required", [sql], cache)
    else
      let tbl := buildChunkTable idRows
      (Except.ok (chunkLookup tbl ch), [sql],
        fun k => if k = "chunk" ++ sql then some tbl else cache k)

/-! ## StatementAssembler: `select` (source lines 310–414) -/

/-- `command` values. -/
inductive Cmd where
  | findFirst
  | findMany
  | findAll
deriving DecidableEq, Repr

/-- A `string | string[]` parameter. -/
inductive StrOrList where
  | one (s : String)
  | many (l : List String)
deriving DecidableEq, Repr

/-- `QueryParams` of `select` (source lines 25–41).  `none` fields model
`undefined`, so destructuring defaults apply. -/
structure QP where
  command : Option Cmd := none
  select : StrOrList := StrOrList.one "*"
  from_ : StrOrList
  join : StrOrList := StrOrList.many []
  joinType : Option StrOrList := none
  where_ : Option Where := none
  whereParams : Option WParams := none
  order : Option StrOrList := none
  group : Option StrOrList := none
  limit : Option Nat := none
  page : Option Nat := none
  offset : Option Nat := none
  chunk : Option ChunkSel := none
deriving DecidableEq, Repr

/-- Normalise `string | string[]` to a list (`if (typeof x === 'string') x = [x]`). -/
def toListStr : StrOrList → List String
  | .one s => [s]
  | .many l => l

/-- JS `.length` of a `string | string[]` value. -/
def solLength : StrOrList → Nat
  | .one s => s.length
  | .many l => l.length

/-- JS truthiness of a `string | string[]` value (arrays are truthy). -/
def solTruthy : StrOrList → Bool
  | .one s => s ≠ ""
  | .many _ => true

/-- JS `hay.includes(sub)` on strings. -/
def strIncludes (hay sub : String) : Bool :=
  (List.range (hay.data.length + 1)).any (fun i => sub.data.isPrefixOf (hay.data.drop i))

/-- JS `s.toLowerCase()` (character-wise). -/
def jsToLower (s : String) : String :=
  String.mk (s.data.map Char.toLower)

/-- Select-field protection (source lines 319–326): fields containing
`' as '` (case-insensitive), a parenthesis, or equal to `*` pass
through verbatim. -/
def protectSelectItem (item : String) : String :=
  if strIncludes (jsToLower item) " as " || item.data.contains '(' || item == "*" then item
  else protectFieldName item

/-- JS `str.trim().split(/\s+/)` (on the already-trimmed string the
regex split equals splitting on whitespace and dropping empties; the
empty string splits to `[""]`). -/
def jsSplitWs (s : String) : List String :=
  if s = "" then [""]
  else (s.split (fun c => c.isWhitespace)).filter (fun x => x ≠ "")

/-- Order-field protection (source lines 371–377): `field DIR` keeps the
direction tokens verbatim; a single token is protected whole. -/
def protectOrderItem (item : String) : String :=
  let parts := jsSplitWs item.trim
  if 1 < parts.length then
    protectFieldName (parts.headD "") ++ " " ++ joinSep " " parts.tail
  else protectFieldName item

/-- Join rendering (source lines 339–347); an out-of-range `joinType`
index prints as JS `undefined`. -/
def joinClause (jl : List String) (jts : List String) : String :=
  String.join ((List.range jl.length).map
    (fun i => " " ++ jts.getD i "undefined" ++ " JOIN " ++ jl.getD i ""))

/-- JS truthiness of a bind value. -/
def valFalsy : Val → Bool
  | .int n => n = 0
  | .str s => s = ""
  | .null => true
  | .undef => true

/-- `whereParams || []` when `buildWhereParams` was never run (the raw
caller-supplied value): arrays pass through (even empty ones are
truthy), a falsy scalar becomes `[]`, a truthy scalar is passed as the
single bind value. -/
def rawOvNorm : Option WParams → List Val
  | none => []
  | some (WParams.list l) => l
  | some (WParams.single v) => if valFalsy v then [] else [v]

/-- The SQL-text assembly of `select` (source lines 313–390), up to but
not including the chunk predicate: returns the assembled text, the JS
truthiness of the (possibly rewritten) `where` variable as tested at
source line 400, and the final bind vector `whereParams || []`. -/
def selectSqlCore (p : QP) : String × Bool × List Val :=
  let selFields := (toListStr p.select).map protectSelectItem
  let fromStr := match p.from_ with
    | StrOrList.one s => s
    | StrOrList.many l => joinSep ", " l
  let sql0 := "SELECT " ++ joinSep ", " selFields ++ " FROM " ++ fromStr
  let sql1 :=
    if 0 < solLength p.join then
      let jl := toListStr p.join
      let jts := match p.joinType with
        | none => List.replicate jl.length "LEFT"
        | some (StrOrList.one s) => List.replicate jl.length s
        | some (StrOrList.many l) => l
      sql0 ++ joinClause jl jts
    else sql0
  let whereRaw := p.where_.getD (Where.str "1=1")
  let sql2 :=
    if whereTruthy whereRaw then sql1 ++ " WHERE " ++ buildWhere whereRaw else sql1
  let wTruthy : Bool :=
    if whereTruthy whereRaw then buildWhere whereRaw != "" else false
  let params :=
    if whereTruthy whereRaw then buildWhereParams whereRaw p.whereParams
    else rawOvNorm p.whereParams
  let sql3 := match p.group with
    | none => sql2
    | some g =>
      if solTruthy g then sql2 ++ " GROUP BY " ++ joinSep ", " ((toListStr g).map protectFieldName)
      else sql2
  let sql4 := match p.order with
    | none => sql3
    | some o =>
      if solTruthy o then sql3 ++ " ORDER BY " ++ joinSep ", " ((toListStr o).map protectOrderItem)
      else sql3
  let sql5 := match p.limit with
    | none => sql4
    | some n =>
      if n = 0 then sql4
      else
        let base := sql4 ++ " LIMIT " ++ toString n
        match p.page with
        | some pg =>
          if 1 < pg then base ++ " OFFSET " ++ toString ((pg - 1) * n)
          else match p.offset with
            | some o2 => if o2 = 0 then base else base ++ " OFFSET " ++ toString o2
            | none => base
        | none => match p.offset with
          | some o2 => if o2 = 0 then base else base ++ " OFFSET " ++ toString o2
          | none => base
  (sql5, wTruthy, params)

/-- What `select` produces: the early `{ error }` objects, a
count-only `{ total }`, or the final data query it issues (text and
bind vector). -/
inductive SelectResult where
  | errObj (msg : String)
  | totalOnly (total : Nat)
  | dataQuery (sql : String) (params : List Val)
deriving DecidableEq, Repr

/-- `select` (source lines 310–414): result plus the trace of SQL texts
issued against the pool.  `idRows` feeds a chunk-table build, exactly
as in `getChunk`. -/
def select (pool : Bool) (pOpt : Option QP)
    (cache : String → Option (List (Int × Int))) (idRows : List Int) :
    Except String SelectResult × List String :=
  if pool = false then (Except.ok (SelectResult.errObj "pool is not initialized"), [])
  else
    match pOpt with
    | none => (Except.ok (SelectResult.errObj "params is required"), [])
    | some p =>
      let command := match p.command with
        | some c => c
        | none => match p.limit with
          | some n => if 1 < n then Cmd.findMany else Cmd.findFirst
          | none => Cmd.findFirst
      let chunkSel :=
        if command = Cmd.findAll ∧ p.chunk = none then some (ChunkSel.num 0) else p.chunk
      let t := selectSqlCore p
      match chunkSel with
      | none => (Except.ok (SelectResult.dataQuery t.1 t.2.2), [t.1])
      | some ch =>
        match getChunk cache idRows t.1 ch with
        | (Except.error e, issued, _) => (Except.error e, issued)
        | (Except.ok r, issued, _) =>
          if ch = ChunkSel.q then (Except.ok (SelectResult.totalOnly r.2.2), issued)
          else
            match r.1, r.2.1 with
            | some s_, some e_ =>
              let sql2 :=
                if t.2.1 then t.1 ++ " AND id BETWEEN " ++ toString s_ ++ " AND " ++ toString e_
                else t.1 ++ " WHERE id BETWEEN " ++ toString s_ ++ " AND " ++ toString e_
              (Except.ok (SelectResult.dataQuery sql2 t.2.2), issued ++ [sql2])
            | _, _ => (Except.ok (SelectResult.totalOnly r.2.2), issued)

/-! ## ExecutionFacade: `query`, `execute`, `batch` (source lines 119–132, 447–460) -/

/-- `UpsertResult` of the driver. -/
structure UpsertResult where
  affectedRows : Nat
  insertId : Nat
  warningStatus : Nat
deriving DecidableEq, Repr

/-- Pool/connection events observable during `batch`. -/
inductive BatchEvent where
  | getConnection
  | batchCall
  | release
deriving DecidableEq, Repr

/-- The pool guard of `query` (source line 120): throws when the pool is
not initialized, otherwise forwards the driver's response. -/
def query (pool : Bool) (driver : Except String (List Rec)) : Except String (List Rec) :=
  if pool = false then Except.error "pool is not initialized" else driver

/-- `execute` (source lines 447–451): when the pool is missing it
RETURNS a plain `{ error }` object instead of throwing. -/
inductive ExecOut where
  | errObj (msg : String)
  | res (r : UpsertResult)
deriving DecidableEq, Repr

def execute (pool : Bool) (driver : Except String UpsertResult) : Except String ExecOut :=
  if pool = false then Except.ok (ExecOut.errObj "pool is not initialized")
  else
    match driver with
    | Except.ok r => Except.ok (ExecOut.res r)
    | Except.error e => Except.error e

/-- `batch` (source lines 453–460):
`getConnection`, then `conn.batch` (whose rejection propagates at the
`await`, skipping the remaining statements of the body — there is no
`try`/`finally`), then `conn.release()`, then return. -/
def batch (pool : Bool) (driver : Except String UpsertResult) :
    Except String UpsertResult × List BatchEvent :=
  if pool = false then (Except.error "pool is not initialized", [])
  else
    let log := [BatchEvent.getConnection, BatchEvent.batchCall]
    match driver with
    | Except.error e => (Except.error e, log)
    | Except.ok r => (Except.ok r, log ++ [BatchEvent.release])

/-! ## Write operations: `insert`, `update`, `objectUpdate`
(source lines 205–227, 284–305, 152–187) -/

/-- `Record<string, any> | Record<string, any>[]`. -/
inductive RecOrRecs where
  | one (r : Rec)
  | many (rs : List Rec)
deriving DecidableEq, Repr

/-- `Array.isArray(values) ? values : [values]`. -/
def normalizeValues : RecOrRecs → List Rec
  | .one r => [r]
  | .many rs => rs

/-- JS property access `record[key]` (missing keys give `undefined`). -/
def recGet (r : Rec) (k : String) : Val :=
  ((r.find? (fun kv => kv.1 == k)).map (fun kv => kv.2)).getD Val.undef

/-- What `insert` does before touching the pool: the empty value set
returns a zero `UpsertResult` without issuing anything (source lines
210–212); otherwise one multi-row INSERT is executed. -/
inductive InsertOutcome where
  | emptyResult (r : UpsertResult)
  | exec (sql : String) (params : List Val)
deriving DecidableEq, Repr

/-- `insert` (source lines 205–227). -/
def insert (table : String) (values : RecOrRecs) : InsertOutcome :=
  let valuesArray := normalizeValues values
  if valuesArray.length = 0 then InsertOutcome.emptyResult ⟨0, 0, 0⟩
  else
    let keys := (valuesArray.headD []).map (fun kv => kv.1)
    let protectedKeys := keys.map protectFieldName
    let placeholders :=
      joinSep "," (valuesArray.map (fun _ => "(" ++ joinSep "," (keys.map (fun _ => "?")) ++ ")"))
    let flatValues := valuesArray.flatMap (fun v => keys.map (fun k => recGet v k))
    InsertOutcome.exec
      ("INSERT INTO " ++ table ++ " (" ++ joinSep "," protectedKeys ++ ") VALUES " ++ placeholders)
      flatValues

/-- `update` (source lines 284–305): synchronous validation, then the
single UPDATE statement (text and bind vector) it would issue. -/
def update (table : String) (values : RecOrRecs) (where_ : Where)
    (whereParams : Option WParams) : Except String (String × List Val) :=
  if whereTruthy where_ = false then Except.error "where is required"
  else
    let valuesArray := normalizeValues values
    if valuesArray.length = 0 then Except.error "values is required"
    else
      let wp := buildWhereParams where_ whereParams
      let w := buildWhere where_
      let sql := "UPDATE " ++ table ++ " SET " ++
        joinSep ","
          (((valuesArray.headD []).map (fun kv => kv.1)).map
            (fun key => protectFieldName key ++ " = ?")) ++
        " WHERE " ++ w
      let placeholders := valuesArray.flatMap (fun r => r.map (fun kv => kv.2))
      Except.ok (sql, placeholders ++ wp)

/-- `objectUpdate` (source lines 152–187): synchronous validation, then
the batched UPDATE template and its per-row parameter groups.
`whereField = none` models an absent option (default `'id'`). -/
def objectUpdate (table : String) (values : List Rec) (whereField : Option String) :
    Except String (String × List (List Val)) :=
  let wf := whereField.getD "id"
  if table = "" ∨ values.length = 0 ∨ wf = "" then
    Except.error "Invalid parameters: table, values (array) and whereField are required"
  else if values.any (fun record => !(record.map (fun kv => kv.1)).contains wf) then
    Except.error ("Tüm kayıtlarda '" ++ wf ++ "' alanı bulunmalıdır")
  else
    let firstRecordFields := ((values.headD []).map (fun kv => kv.1)).filter (fun f => f ≠ wf)
    let allHaveSameFields := values.all (fun record =>
      let fields := (record.map (fun kv => kv.1)).filter (fun f => f ≠ wf)
      fields.length == firstRecordFields.length &&
        fields.all (fun f => firstRecordFields.contains f))
    if !allHaveSameFields then Except.error "All records must have the same fields"
    else
      let fields := firstRecordFields
      let setClause := joinSep ", " (fields.map (fun field => field ++ " = ?"))
      let sql := "UPDATE " ++ table ++ " SET " ++ setClause ++ " WHERE " ++ wf ++ " = ?"
      let batchParams := values.map (fun record =>
        (fields.map (fun field => recGet record field)) ++ [recGet record wf])
      Except.ok (sql, batchParams)

/-! ## Properties of `splitDot` and `joinDot` -/

theorem splitDot_ne_nil (s : List Char) : splitDot s ≠ [] := by
  cases s with
  | nil => simp [splitDot]
  | cons c rest =>
    by_cases h : c = '.' <;> simp [splitDot, h]

theorem mem_splitDot_length_le {s p : List Char} (hp : p ∈ splitDot s) :
    p.length ≤ s.length := by
  induction s generalizing p with
  | nil =>
    simp [splitDot] at hp
    simp [hp]
  | cons c rest ih =>
    by_cases hc : c = '.'
    · simp [splitDot, hc] at hp
      rcases hp with hp | hp
      · simp [hp]
      · exact Nat.le_succ_of_le (ih hp)
    · obtain ⟨h0, t0, heq⟩ := List.exists_cons_of_ne_nil (splitDot_ne_nil rest)
      simp [splitDot, hc, heq] at hp
      rcases hp with hp | hp
      · have : h0 ∈ splitDot rest := by rw [heq]; exact List.mem_cons_self _ _
        have := ih this
        simp [hp]
        omega
      · have : p ∈ splitDot rest := by rw [heq]; exact List.mem_cons_of_mem _ hp
        exact Nat.le_succ_of_le (ih this)

theorem mem_splitDot_length_lt {s p : List Char} (hd : '.' ∈ s) (hp : p ∈ splitDot s) :
    p.length < s.length := by
  induction s generalizing p with
  | nil => cases hd
  | cons c rest ih =>
    by_cases hc : c = '.'
    · simp [splitDot, hc] at hp
      rcases hp with hp | hp
      · simp [hp]
      · have := mem_splitDot_length_le hp
        simp
        omega
    · have hd' : '.' ∈ rest := by
        rcases List.mem_cons.1 hd with h | h
        · exact absurd h.symm hc
        · exact h
      obtain ⟨h0, t0, heq⟩ := List.exists_cons_of_ne_nil (splitDot_ne_nil rest)
      simp [splitDot, hc, heq] at hp
      rcases hp with hp | hp
      · have : h0 ∈ splitDot rest := by rw [heq]; exact List.mem_cons_self _ _
        have := ih hd' this
        simp [hp]
        omega
      · have : p ∈ splitDot rest := by rw [heq]; exact List.mem_cons_of_mem _ hp
        exact Nat.lt_succ_of_lt (ih hd' this)

theorem mem_splitDot_no_dot {s p : List Char} (hp : p ∈ splitDot s) : '.' ∉ p := by
  induction s generalizing p with
  | nil =>
    simp [splitDot] at hp
    simp [hp]
  | cons c rest ih =>
    by_cases hc : c = '.'
    · simp [splitDot, hc] at hp
      rcases hp with hp | hp
      · simp [hp]
      · exact ih hp
    · obtain ⟨h0, t0, heq⟩ := List.exists_cons_of_ne_nil (splitDot_ne_nil rest)
      simp [splitDot, hc, heq] at hp
      rcases hp with hp | hp
      · have hh : h0 ∈ splitDot rest := by rw [heq]; exact List.mem_cons_self _ _
        have := ih hh
        simp [hp]
        exact ⟨fun h => hc h.symm, this⟩
      · exact ih (by rw [heq]; exact List.mem_cons_of_mem _ hp)

theorem mem_of_mem_splitDot {s p : List Char} {c : Char} (hc : c ∈ p)
    (hp : p ∈ splitDot s) : c ∈ s := by
  induction s generalizing p with
  | nil =>
    simp [splitDot] at hp
    rw [hp] at hc
    cases hc
  | cons a rest ih =>
    by_cases ha : a = '.'
    · simp [splitDot, ha] at hp
      rcases hp with hp | hp
      · rw [hp] at hc; cases hc
      · exact List.mem_cons_of_mem _ (ih hc hp)
    · obtain ⟨h0, t0, heq⟩ := List.exists_cons_of_ne_nil (splitDot_ne_nil rest)
      simp [splitDot, ha, heq] at hp
      rcases hp with hp | hp
      · rw [hp] at hc
        rcases List.mem_cons.1 hc with h | h
        · simp [h]
        · have hh : h0 ∈ splitDot rest := by rw [heq]; exact List.mem_cons_self _ _
          exact List.mem_cons_of_mem _ (ih h hh)
      · exact List.mem_cons_of_mem _ (ih hc (by rw [heq]; exact List.mem_cons_of_mem _ hp))

theorem splitDot_length_ge_two {s : List Char} (hd : '.' ∈ s) :
    2 ≤ (splitDot s).length := by
  induction s with
  | nil => cases hd
  | cons c rest ih =>
    by_cases hc : c = '.'
    · have := List.length_pos.2 (splitDot_ne_nil rest)
      simp [splitDot, hc]
      omega
    · have hd' : '.' ∈ rest := by
        rcases List.mem_cons.1 hd with h | h
        · exact absurd h.symm hc
        · exact h
      obtain ⟨h0, t0, heq⟩ := List.exists_cons_of_ne_nil (splitDot_ne_nil rest)
      have := ih hd'
      rw [heq] at this
      simp [splitDot, hc, heq]
      simp at this
      omega

theorem splitDot_no_dot {s : List Char} (h : '.' ∉ s) : splitDot s = [s] := by
  induction s with
  | nil => simp [splitDot]
  | cons c rest ih =>
    have hc : ¬ c = '.' := fun hc => h (by simp [hc])
    have hr : '.' ∉ rest := fun hr => h (List.mem_cons_of_mem _ hr)
    simp [splitDot, hc, ih hr]

theorem splitDot_append_dot {l t : List Char} (h : '.' ∉ l) :
    splitDot (l ++ '.' :: t) = l :: splitDot t := by
  induction l with
  | nil => simp [splitDot]
  | cons c l ih =>
    have hc : ¬ c = '.' := fun hc => h (by simp [hc])
    have hl : '.' ∉ l := fun hl => h (List.mem_cons_of_mem _ hl)
    simp [splitDot, hc, ih hl]

theorem splitDot_joinDot {ls : List (List Char)} (hne : ls ≠ [])
    (h : ∀ p ∈ ls, '.' ∉ p) : splitDot (joinDot ls) = ls := by
  induction ls with
  | nil => exact absurd rfl hne
  | cons p ps ih =>
    cases ps with
    | nil =>
      simp [joinDot]
      exact splitDot_no_dot (h p (List.mem_cons_self _ _))
    | cons q qs =>
      have : joinDot (p :: q :: qs) = p ++ '.' :: joinDot (q :: qs) := rfl
      rw [this, splitDot_append_dot (h p (List.mem_cons_self _ _))]
      rw [ih (by simp) (fun r hr => h r (List.mem_cons_of_mem _ hr))]

theorem dot_mem_joinDot {ls : List (List Char)} (h : 2 ≤ ls.length) :
    '.' ∈ joinDot ls := by
  match ls, h with
  | p :: q :: qs, _ =>
    have : joinDot (p :: q :: qs) = p ++ '.' :: joinDot (q :: qs) := rfl
    rw [this]
    exact List.mem_append_right _ (List.mem_cons_self _ _)

theorem mem_joinDot {ls : List (List Char)} {c : Char} (h : c ∈ joinDot ls) :
    c = '.' ∨ ∃ p ∈ ls, c ∈ p := by
  induction ls with
  | nil => cases h
  | cons p ps ih =>
    cases ps with
    | nil =>
      simp [joinDot] at h
      exact Or.inr ⟨p, List.mem_cons_self _ _, h⟩
    | cons q qs =>
      have heq : joinDot (p :: q :: qs) = p ++ '.' :: joinDot (q :: qs) := rfl
      rw [heq] at h
      rcases List.mem_append.1 h with h | h
      · exact Or.inr ⟨p, List.mem_cons_self _ _, h⟩
      · rcases List.mem_cons.1 h with h | h
        · exact Or.inl h
        · rcases ih h with h | ⟨r, hr, hcr⟩
          · exact Or.inl h
          · exact Or.inr ⟨r, List.mem_cons_of_mem _ hr, hcr⟩

/-! ## Branch equations and fuel-independence of `protectAux` -/

theorem protectAux_quoted {s : List Char} (fuel : Nat)
    (h : s.head? = some btick ∧ s.getLast? = some btick) : protectAux fuel s = s := by
  unfold protectAux
  rw [if_pos h]

theorem protectAux_dot_succ {s : List Char} (fuel : Nat)
    (h1 : ¬ (s.head? = some btick ∧ s.getLast? = some btick)) (h2 : '.' ∈ s) :
    protectAux (fuel + 1) s = joinDot ((splitDot s).map (protectAux fuel)) := by
  unfold protectAux
  rw [if_neg h1, if_pos h2]

theorem protectAux_wrap {s : List Char} (fuel : Nat)
    (h1 : ¬ (s.head? = some btick ∧ s.getLast? = some btick)) (h2 : '.' ∉ s)
    (h3 : isReserved s ∨ s.any (fun c => !isWordChar c)) :
    protectAux fuel s = btick :: s ++ [btick] := by
  unfold protectAux
  rw [if_neg h1, if_neg h2, if_pos h3]

theorem protectAux_id {s : List Char} (fuel : Nat)
    (h1 : ¬ (s.head? = some btick ∧ s.getLast? = some btick)) (h2 : '.' ∉ s)
    (h3 : ¬ (isReserved s ∨ s.any (fun c => !isWordChar c))) :
    protectAux fuel s = s := by
  unfold protectAux
  rw [if_neg h1, if_neg h2, if_neg h3]

theorem protectAux_stable (n : Nat) :
    ∀ s : List Char, ∀ m : Nat, s.length ≤ n → s.length ≤ m →
      protectAux n s = protectAux m s := by
  induction n with
  | zero =>
    intro s m hs _
    have hs0 : s = [] := List.eq_nil_of_length_eq_zero (Nat.le_zero.1 hs)
    subst hs0
    have h1 : ¬ (([] : List Char).head? = some btick ∧ ([] : List Char).getLast? = some btick) := by
      simp
    have h2 : '.' ∉ ([] : List Char) := by simp
    have h3 : ¬ (isReserved [] ∨ ([] : List Char).any (fun c => !isWordChar c)) := by decide
    rw [protectAux_id 0 h1 h2 h3, protectAux_id m h1 h2 h3]
  | succ n ih =>
    intro s m hs hm
    by_cases h1 : s.head? = some btick ∧ s.getLast? = some btick
    · rw [protectAux_quoted _ h1, protectAux_quoted _ h1]
    · by_cases h2 : '.' ∈ s
      · have hpos : 0 < s.length := by
          cases s with
          | nil => cases h2
          | cons a t => simp
        cases m with
        | zero => omega
        | succ m' =>
          rw [protectAux_dot_succ n h1 h2, protectAux_dot_succ m' h1 h2]
          congr 1
          apply List.map_congr_left
          intro p hp
          have hlt := mem_splitDot_length_lt h2 hp
          exact ih p m' (by omega) (by omega)
      · by_cases h3 : isReserved s ∨ s.any (fun c => !isWordChar c)
        · rw [protectAux_wrap _ h1 h2 h3, protectAux_wrap _ h1 h2 h3]
        · rw [protectAux_id _ h1 h2 h3, protectAux_id _ h1 h2 h3]

/-! ## Branch equations of `protectL` -/

theorem protectL_quoted {s : List Char}
    (h : s.head? = some btick ∧ s.getLast? = some btick) : protectL s = s :=
  protectAux_quoted _ h

theorem protectL_dot {s : List Char}
    (h1 : ¬ (s.head? = some btick ∧ s.getLast? = some btick)) (h2 : '.' ∈ s) :
    protectL s = joinDot ((splitDot s).map protectL) := by
  have hpos : 0 < s.length := by
    cases s with
    | nil => cases h2
    | cons a t => simp
  obtain ⟨k, hk⟩ : ∃ k, s.length = k + 1 := ⟨s.length - 1, by omega⟩
  unfold protectL
  rw [hk, protectAux_dot_succ k h1 h2]
  congr 1
  apply List.map_congr_left
  intro p hp
  have hlt := mem_splitDot_length_lt h2 hp
  exact protectAux_stable k p p.length (by omega) le_rfl

theorem protectL_wrap {s : List Char}
    (h1 : ¬ (s.head? = some btick ∧ s.getLast? = some btick)) (h2 : '.' ∉ s)
    (h3 : isReserved s ∨ s.any (fun c => !isWordChar c)) :
    protectL s = btick :: s ++ [btick] :=
  protectAux_wrap _ h1 h2 h3

theorem protectL_id {s : List Char}
    (h1 : ¬ (s.head? = some btick ∧ s.getLast? = some btick)) (h2 : '.' ∉ s)
    (h3 : ¬ (isReserved s ∨ s.any (fun c => !isWordChar c))) :
    protectL s = s :=
  protectAux_id _ h1 h2 h3

theorem protectL_no_dot {s : List Char} (h : '.' ∉ s) : '.' ∉ protectL s := by
  by_cases h1 : s.head? = some btick ∧ s.getLast? = some btick
  · rw [protectL_quoted h1]; exact h
  · by_cases h3 : isReserved s ∨ s.any (fun c => !isWordChar c)
    · rw [protectL_wrap h1 h h3]
      intro hmem
      rcases List.mem_cons.1 hmem with hc | hc
      · exact absurd hc.symm (by decide)
      · rcases List.mem_append.1 hc with hc | hc
        · exact h hc
        · simp at hc
          exact absurd hc.symm (by decide)
    · rw [protectL_id h1 h h3]; exact h

theorem mem_protectL_aux (n : Nat) :
    ∀ s : List Char, s.length ≤ n → ∀ c ∈ protectL s, c = btick ∨ c = '.' ∨ c ∈ s := by
  induction n with
  | zero =>
    intro s hs c hc
    have : s = [] := List.eq_nil_of_length_eq_zero (Nat.le_zero.1 hs)
    subst this
    rw [protectL_id (by simp) (by simp) (by decide)] at hc
    exact Or.inr (Or.inr hc)
  | succ n ih =>
    intro s hs c hc
    by_cases h1 : s.head? = some btick ∧ s.getLast? = some btick
    · rw [protectL_quoted h1] at hc
      exact Or.inr (Or.inr hc)
    · by_cases h2 : '.' ∈ s
      · rw [protectL_dot h1 h2] at hc
        rcases mem_joinDot hc with h | ⟨pp, hpp, hcpp⟩
        · exact Or.inr (Or.inl h)
        · obtain ⟨q, hq, rfl⟩ := List.mem_map.1 hpp
          have hlt := mem_splitDot_length_lt h2 hq
          rcases ih q (by omega) c hcpp with h | h | h
          · exact Or.inl h
          · exact Or.inr (Or.inl h)
          · exact Or.inr (Or.inr (mem_of_mem_splitDot h hq))
      · by_cases h3 : isReserved s ∨ s.any (fun c => !isWordChar c)
        · rw [protectL_wrap h1 h2 h3] at hc
          rcases List.mem_cons.1 hc with h | h
          · exact Or.inl h
          · rcases List.mem_append.1 h with h | h
            · exact Or.inr (Or.inr h)
            · simp at h
              exact Or.inl h
        · rw [protectL_id h1 h2 h3] at hc
          exact Or.inr (Or.inr hc)

theorem mem_protectL {s : List Char} {c : Char} (hc : c ∈ protectL s) :
    c = btick ∨ c = '.' ∨ c ∈ s :=
  mem_protectL_aux s.length s le_rfl c hc

theorem protectL_idem_aux (n : Nat) :
    ∀ s : List Char, s.length ≤ n → protectL (protectL s) = protectL s := by
  induction n with
  | zero =>
    intro s hs
    have : s = [] := List.eq_nil_of_length_eq_zero (Nat.le_zero.1 hs)
    subst this
    have he : protectL [] = [] :=
      protectL_id (by simp) (by simp) (by decide)
    rw [he, he]
  | succ n ih =>
    intro s hs
    by_cases h1 : s.head? = some btick ∧ s.getLast? = some btick
    · rw [protectL_quoted h1]
      exact protectL_quoted h1
    · by_cases h2 : '.' ∈ s
      · rw [protectL_dot h1 h2]
        set ls : List (List Char) := (splitDot s).map protectL with hls
        by_cases hq2 : (joinDot ls).head? = some btick ∧ (joinDot ls).getLast? = some btick
        · exact protectL_quoted hq2
        · have hlen : 2 ≤ (splitDot s).length := splitDot_length_ge_two h2
          have hlen2 : 2 ≤ ls.length := by
            rw [hls, List.length_map]
            exact hlen
          have hdot : '.' ∈ joinDot ls := dot_mem_joinDot hlen2
          rw [protectL_dot hq2 hdot]
          have hnodot : ∀ p ∈ ls, '.' ∉ p := by
            intro p hp
            rw [hls] at hp
            obtain ⟨q, hq, rfl⟩ := List.mem_map.1 hp
            exact protectL_no_dot (mem_splitDot_no_dot hq)
          rw [splitDot_joinDot (by intro h; rw [h] at hlen2; simp at hlen2) hnodot]
          congr 1
          rw [hls, List.map_map]
          apply List.map_congr_left
          intro q hq
          have hlt := mem_splitDot_length_lt h2 hq
          exact ih q (by omega)
      · by_cases h3 : isReserved s ∨ s.any (fun c => !isWordChar c)
        · rw [protectL_wrap h1 h2 h3]
          apply protectL_quoted
          constructor
          · simp
          · exact List.getLast?_concat _
        · rw [protectL_id h1 h2 h3]
          exact protectL_id h1 h2 h3

theorem protectL_idem (s : List Char) : protectL (protectL s) = protectL s :=
  protectL_idem_aux s.length s le_rfl

/-- A plain identifier (not quoted, no dot, not reserved, word
characters only) passes through `protectFieldName` unchanged. -/
theorem protectFieldName_plain {s : String}
    (h1 : ¬ (s.data.head? = some btick ∧ s.data.getLast? = some btick))
    (h2 : '.' ∉ s.data)
    (h3 : ¬ (isReserved s.data ∨ s.data.any (fun c => !isWordChar c))) :
    protectFieldName s = s := by
  unfold protectFieldName
  rw [protectL_id h1 h2 h3]

/-- C6: for every identifier string, `protectFieldName` is idempotent —
protecting an already-protected token (quoted tokens, dotted paths
protected component-wise, reserved words, tokens with special
characters) returns it unchanged. -/
theorem protectFieldName_idempotent (x : String) :
    protectFieldName (protectFieldName x) = protectFieldName x := by
  unfold protectFieldName
  rw [show (String.mk (protectL x.data)).data = protectL x.data from rfl, protectL_idem]

/-! ## Placeholder counting for the WHERE compiler -/

theorem countQ_append (a b : String) : countQ (a ++ b) = countQ a + countQ b := by
  simp [countQ, String.data_append, List.count_append]

theorem countQ_joinSep {sep : String} (h : countQ sep = 0) (parts : List String) :
    countQ (joinSep sep parts) = (parts.map countQ).sum := by
  induction parts with
  | nil => simp [joinSep, countQ]
  | cons x xs ih =>
    cases xs with
    | nil => simp [joinSep]
    | cons y t =>
      have he : joinSep sep (x :: y :: t) = x ++ sep ++ joinSep sep (y :: t) := rfl
      rw [he, countQ_append, countQ_append, h, ih]
      simp only [List.map_cons, List.sum_cons]
      omega

theorem protectL_no_q {s : List Char} (h : '?' ∉ s) : '?' ∉ protectL s := by
  intro hmem
  rcases mem_protectL hmem with h1 | h1 | h1
  · exact absurd h1 (by decide)
  · exact absurd h1 (by decide)
  · exact h h1

theorem countQ_protectFieldName {k : String} (h : '?' ∉ k.data) :
    countQ (protectFieldName k) = 0 := by
  unfold protectFieldName countQ
  rw [show (String.mk (protectL k.data)).data = protectL k.data from rfl]
  exact List.count_eq_zero.2 (protectL_no_q h)

theorem countQ_eqClause {k : String} (h : '?' ∉ k.data) :
    countQ (protectFieldName k ++ " = ?") = 1 := by
  rw [countQ_append, countQ_protectFieldName h]
  decide

theorem sum_countQ_eqClauses {fields : Rec} (h : ∀ kv ∈ fields, '?' ∉ kv.1.data) :
    ((fields.map (fun kv => protectFieldName kv.1 ++ " = ?")).map countQ).sum = fields.length := by
  induction fields with
  | nil => simp
  | cons kv t ih =>
    simp only [List.map_cons, List.sum_cons, List.length_cons]
    rw [countQ_eqClause (h kv (List.mem_cons_self _ _)),
      ih (fun x hx => h x (List.mem_cons_of_mem _ hx))]
    omega

theorem countQ_andClauses {fields : Rec} (h : ∀ kv ∈ fields, '?' ∉ kv.1.data) :
    countQ (joinSep " AND " (fields.map (fun kv => protectFieldName kv.1 ++ " = ?"))) =
      fields.length := by
  rw [countQ_joinSep (by decide)]
  exact sum_countQ_eqClauses h

theorem sum_countQ_filter (l : List String) :
    ((l.filter (fun c => c ≠ "")).map countQ).sum = (l.map countQ).sum := by
  induction l with
  | nil => rfl
  | cons x t ih =>
    by_cases hx : x = ""
    · subst hx
      rw [show (("" :: t).filter (fun c => c ≠ "")) = t.filter (fun c => c ≠ "") from by simp, ih]
      simp [countQ]
    · rw [show ((x :: t).filter (fun c => c ≠ "")) = x :: t.filter (fun c => c ≠ "") from by
        simp [List.filter_cons, hx]]
      simp only [List.map_cons, List.sum_cons, ih]

theorem noq_of_elemObjOk {f : Rec} (h : elemObjOk (WElem.m f) = true) :
    ∀ kv ∈ f, '?' ∉ kv.1.data := by
  intro kv hkv hq
  have := List.all_eq_true.1 h kv hkv
  simp at this
  exact absurd hq this

theorem countQ_objClause {e : WElem} (he : elemObjOk e = true) :
    countQ (objClause e) = (elemVals e).length := by
  cases e with
  | s v => simp [elemObjOk] at he
  | nul => decide
  | m f =>
    have hf := noq_of_elemObjOk he
    show countQ ("(" ++ joinSep " AND " (f.map (fun kv => protectFieldName kv.1 ++ " = ?")) ++ ")") = _
    rw [countQ_append, countQ_append, countQ_andClauses hf]
    simp [countQ, elemVals]

theorem parity_objList {elems : List WElem} (he : ∀ e ∈ elems, elemObjOk e = true) :
    ((elems.map objClause).map countQ).sum = (elems.flatMap elemVals).length := by
  induction elems with
  | nil => simp
  | cons e t ih =>
    simp only [List.map_cons, List.sum_cons, List.flatMap_cons, List.length_append]
    rw [countQ_objClause (he e (List.mem_cons_self _ _)),
      ih (fun x hx => he x (List.mem_cons_of_mem _ hx))]

/-- C1 (counterexample): a raw-string WhereSpec containing a `?` is
compiled verbatim while `buildWhereParams` (with no override) returns
no parameters, so the placeholder count and the parameter-vector
length differ. -/
theorem wherePlaceholderParityCounterexample :
    countQ (buildWhere (Where.str "id = ?")) ≠
      (buildWhereParams (Where.str "id = ?") none).length := by
  decide

/-- C1 (amended): for the field→value mapping shape and the non-empty
list-of-mappings shape (mappings or `null` cells, mapping keys
containing no `?` character), with no explicit parameter override, the
number of `?` placeholders emitted by `buildWhere` equals the length of
the vector produced by `buildWhereParams`; raw-string shapes are
compiled verbatim and contribute no parameters, so their placeholders
are not matched. -/
theorem wherePlaceholderParamParity (fields : Rec) (e0 : WElem) (rest : List WElem)
    (hf : ∀ kv ∈ fields, '?' ∉ kv.1.data)
    (he : ∀ e ∈ e0 :: rest, elemObjOk e = true) :
    countQ (buildWhere (Where.obj fields)) =
      (buildWhereParams (Where.obj fields) none).length ∧
    countQ (buildWhere (Where.arr (e0 :: rest))) =
      (buildWhereParams (Where.arr (e0 :: rest)) none).length := by
  constructor
  · show countQ (joinSep " AND " (fields.map (fun kv => protectFieldName kv.1 ++ " = ?"))) = _
    rw [countQ_andClauses hf]
    simp [buildWhereParams, whereTruthy]
  · have h0 := he e0 (List.mem_cons_self _ _)
    cases e0 with
    | s v => simp [elemObjOk] at h0
    | nul =>
      show countQ (joinSep " OR "
        (((WElem.nul :: rest).map objClause).filter (fun c => c ≠ ""))) = _
      rw [countQ_joinSep (by decide), sum_countQ_filter, parity_objList he]
      rfl
    | m f =>
      show countQ (joinSep " OR "
        (((WElem.m f :: rest).map objClause).filter (fun c => c ≠ ""))) = _
      rw [countQ_joinSep (by decide), sum_countQ_filter, parity_objList he]
      rfl

/-- Witness for C1 (amended) at `{a: 1}` and `[{b: 2}, null]`. -/
theorem wherePlaceholderParamParity_witness :
    (∀ kv ∈ ([("a", Val.int 1)] : Rec), '?' ∉ kv.1.data) ∧
    (∀ e ∈ WElem.m [("b", Val.int 2)] :: [WElem.nul], elemObjOk e = true) ∧
    (countQ (buildWhere (Where.obj [("a", Val.int 1)])) =
      (buildWhereParams (Where.obj [("a", Val.int 1)]) none).length ∧
    countQ (buildWhere (Where.arr (WElem.m [("b", Val.int 2)] :: [WElem.nul]))) =
      (buildWhereParams (Where.arr (WElem.m [("b", Val.int 2)] :: [WElem.nul])) none).length) :=
  ⟨by decide, by decide,
    wherePlaceholderParamParity [("a", Val.int 1)] (WElem.m [("b", Val.int 2)]) [WElem.nul]
      (by decide) (by decide)⟩

/-- C4: the field→value mapping shape compiles, key by key in iteration
order, to `protect(key) = ?` joined with `" AND "`, and (with no
override) its parameters are the mapping's values in key order; in
particular `{a: 1, b: 2}` compiles to `a = ? AND b = ?` with
parameters `[1, 2]`. -/
theorem whereObjCompilation (fields : Rec) :
    buildWhere (Where.obj fields) =
      joinSep " AND " (fields.map (fun kv => protectFieldName kv.1 ++ " = ?")) ∧
    buildWhereParams (Where.obj fields) none = fields.map (fun kv => kv.2) ∧
    buildWhere (Where.obj [("a", Val.int 1), ("b", Val.int 2)]) = "a = ? AND b = ?" ∧
    buildWhereParams (Where.obj [("a", Val.int 1), ("b", Val.int 2)]) none =
      [Val.int 1, Val.int 2] :=
  ⟨rfl, rfl, by decide, by decide⟩

/-- C5: a non-empty list of mappings compiles each non-null mapping to
its parenthesised AND-joined clause, skips null cells, joins with
`" OR "`, and (with no override) concatenates all mapping values in
mapping order then key order; e.g. `[{a: 1}, null, {b: 2}]` compiles to
`(a = ?) OR (b = ?)` with parameters `[1, 2]`. -/
theorem whereObjListCompilation (e0 : WElem) (rest : List WElem)
    (h0 : e0 = WElem.nul ∨ ∃ f, e0 = WElem.m f) :
    buildWhere (Where.arr (e0 :: rest)) =
      joinSep " OR " (((e0 :: rest).map objClause).filter (fun c => c ≠ "")) ∧
    buildWhereParams (Where.arr (e0 :: rest)) none = (e0 :: rest).flatMap elemVals ∧
    buildWhere (Where.arr [WElem.m [("a", Val.int 1)], WElem.nul, WElem.m [("b", Val.int 2)]]) =
      "(a = ?) OR (b = ?)" ∧
    buildWhereParams
      (Where.arr [WElem.m [("a", Val.int 1)], WElem.nul, WElem.m [("b", Val.int 2)]]) none =
      [Val.int 1, Val.int 2] := by
  refine ⟨?_, ?_, by decide, by decide⟩
  · rcases h0 with rfl | ⟨f, rfl⟩ <;> rfl
  · rcases h0 with rfl | ⟨f, rfl⟩ <;> rfl

/-- Witness for C5 at the single-element list `[null]`. -/
theorem whereObjListCompilation_witness :
    (WElem.nul = WElem.nul ∨ ∃ f, WElem.nul = WElem.m f) ∧
    (buildWhere (Where.arr (WElem.nul :: [])) =
      joinSep " OR " ((([WElem.nul] : List WElem).map objClause).filter (fun c => c ≠ "")) ∧
    buildWhereParams (Where.arr (WElem.nul :: [])) none =
      ([WElem.nul] : List WElem).flatMap elemVals ∧
    buildWhere (Where.arr [WElem.m [("a", Val.int 1)], WElem.nul, WElem.m [("b", Val.int 2)]]) =
      "(a = ?) OR (b = ?)" ∧
    buildWhereParams
      (Where.arr [WElem.m [("a", Val.int 1)], WElem.nul, WElem.m [("b", Val.int 2)]]) none =
      [Val.int 1, Val.int 2]) :=
  ⟨Or.inl rfl, whereObjListCompilation WElem.nul [] (Or.inl rfl)⟩

/-- C9: the empty-list WhereSpec `[]` is truthy, skips the `1 = 1`
empty case, falls through every array branch to the `String(where)`
coercion (the empty string), and yields no parameters; a select with
`where: []` therefore appends `WHERE ` with no predicate. -/
theorem emptyArrayWhere :
    buildWhere (Where.arr []) = "" ∧
    buildWhereParams (Where.arr []) none = [] ∧
    (selectSqlCore { from_ := StrOrList.one "users", where_ := some (Where.arr []) }).1 =
      "SELECT * FROM users WHERE " ∧
    (selectSqlCore { from_ := StrOrList.one "users", where_ := some (Where.arr []) }).2.2 = [] :=
  ⟨by decide, by decide, by decide, by decide⟩

/-- C10: with an uninitialized pool, `query` and `batch` throw
(`Except.error`) while `select` and `execute` return a plain
`{ error: 'pool is not initialized' }` object as their ordinary result. -/
theorem poolGuardBehavior (d1 : Except String (List Rec)) (d2 d3 : Except String UpsertResult)
    (pq : Option QP) (cache : String → Option (List (Int × Int))) (rows : List Int) :
    query false d1 = Except.error "pool is not initialized" ∧
    (batch false d2).1 = Except.error "pool is not initialized" ∧
    execute false d3 = Except.ok (ExecOut.errObj "pool is not initialized") ∧
    (select false pq cache rows).1 = Except.ok (SelectResult.errObj "pool is not initialized") :=
  ⟨rfl, rfl, rfl, rfl⟩

/-- C3: `batch` releases the acquired connection only on the success
path; when the driver's batch call fails, the rejection propagates at
the `await` and `conn.release()` is never executed (there is no
`try`/`finally` in the source), so the error is re-thrown with the
connection still held. -/
theorem batchReleaseOnlyOnSuccess (r : UpsertResult) (e : String) :
    batch true (Except.ok r) =
      (Except.ok r, [BatchEvent.getConnection, BatchEvent.batchCall, BatchEvent.release]) ∧
    batch true (Except.error e) =
      (Except.error e, [BatchEvent.getConnection, BatchEvent.batchCall]) ∧
    BatchEvent.release ∉ (batch true (Except.error e)).2 :=
  ⟨rfl, rfl, by simp [batch]⟩

/-- C7 (counterexample): `insert` with an empty array of records does
not raise an invalid-request error — it returns the zero
`UpsertResult` `{affectedRows: 0, insertId: 0, warningStatus: 0}`
without issuing any statement. -/
theorem insertEmptyCounterexample :
    insert "users" (RecOrRecs.many []) = InsertOutcome.emptyResult ⟨0, 0, 0⟩ :=
  rfl

/-- C7 (amended): `update` and `objectUpdate` with an empty value set
raise an invalid-request error synchronously, before any statement is
issued; `insert` with an empty array instead returns a zero
`UpsertResult` synchronously, also without issuing any statement. -/
theorem emptyValuesBehavior (t1 t2 t3 : String) (w : Where) (ov : Option WParams)
    (wf : Option String) (hw : whereTruthy w = true) :
    update t1 (RecOrRecs.many []) w ov = Except.error "values is required" ∧
    objectUpdate t2 [] wf =
      Except.error "Invalid parameters: table, values (array) and whereField are required" ∧
    insert t3 (RecOrRecs.many []) = InsertOutcome.emptyResult ⟨0, 0, 0⟩ := by
  refine ⟨?_, ?_, rfl⟩
  · simp [update, hw, normalizeValues]
  · simp [objectUpdate]

/-- Witness for C7 (amended) at a truthy raw-string WHERE. -/
theorem emptyValuesBehavior_witness :
    whereTruthy (Where.str "id = 1") = true ∧
    (update "users" (RecOrRecs.many []) (Where.str "id = 1") none =
      Except.error "values is required" ∧
    objectUpdate "users" [] none =
      Except.error "Invalid parameters: table, values (array) and whereField are required" ∧
    insert "users" (RecOrRecs.many []) = InsertOutcome.emptyResult ⟨0, 0, 0⟩) :=
  ⟨by decide,
    emptyValuesBehavior "users" "users" "users" (Where.str "id = 1") none none (by decide)⟩

/-! ## Chunk partition properties -/

theorem tailWindows_eq (n i : Nat) :
    tailWindows n i = if i < n then (i, winEnd n i) :: tailWindows n (i + 1000) else [] := by
  rw [tailWindows]

theorem tailWindows_nil {n i : Nat} (h : ¬ i < n) : tailWindows n i = [] := by
  rw [tailWindows_eq, if_neg h]

theorem tailWindows_cons {n i : Nat} (h : i < n) :
    tailWindows n i = (i, winEnd n i) :: tailWindows n (i + 1000) := by
  rw [tailWindows_eq, if_pos h]

theorem tailChunk_eq (data : List Int) (i : Nat) :
    tailChunk data i =
      if i < data.length then
        (data.getD i 0, data.getD (winEnd data.length i) 0) :: tailChunk data (i + 1000)
      else [] := by
  rw [tailChunk]

theorem tailChunk_eq_map (data : List Int) (i : Nat) :
    tailChunk data i =
      (tailWindows data.length i).map (fun w => (data.getD w.1 0, data.getD w.2 0)) := by
  by_cases h : i < data.length
  · rw [tailChunk_eq, if_pos h, tailWindows_cons h]
    simp only [List.map_cons]
    rw [tailChunk_eq_map data (i + 1000)]
  · rw [tailChunk_eq, if_neg h, tailWindows_nil h]
    rfl
termination_by data.length - i
decreasing_by
  omega

theorem tailWindows_flat (n i : Nat) :
    (tailWindows n i).flatMap (fun w => List.range' w.1 (winSize w)) = List.range' i (n - i) := by
  by_cases h : i < n
  · rw [tailWindows_cons h, List.flatMap_cons, tailWindows_flat n (i + 1000)]
    by_cases hbig : i + 1000 - 1 < n - 1
    · have h1 : winEnd n i = i + 1000 - 1 := if_pos hbig
      have h2 : winSize (i, winEnd n i) = 1000 := by
        simp only [winSize, h1]
        omega
      have happ := List.range'_append i 1000 (n - (i + 1000)) 1
      simp only [Nat.one_mul] at happ
      rw [h2, happ]
      congr 1
      omega
    · have h1 : winEnd n i = n - 1 := if_neg hbig
      have h2 : winSize (i, winEnd n i) = n - i := by
        simp only [winSize, h1]
        omega
      have h3 : n - (i + 1000) = 0 := by omega
      rw [h2, h3]
      simp
  · rw [tailWindows_nil h]
    have : n - i = 0 := by omega
    simp [this]
termination_by n - i
decreasing_by
  omega

theorem tailWindows_sizes (n i : Nat) :
    ∀ w ∈ (tailWindows n i).dropLast, winSize w = 1000 := by
  by_cases h : i < n
  · rw [tailWindows_cons h]
    by_cases h2 : i + 1000 < n
    · have hne : tailWindows n (i + 1000) ≠ [] := by
        rw [tailWindows_cons h2]
        simp
      rw [List.dropLast_cons_of_ne_nil hne]
      intro w hw
      rcases List.mem_cons.1 hw with rfl | hw
      · have he : winEnd n i = i + 1000 - 1 := if_pos (by omega)
        simp only [winSize, he]
        omega
      · exact tailWindows_sizes n (i + 1000) w hw
    · rw [tailWindows_nil h2]
      simp
  · rw [tailWindows_nil h]
    simp
termination_by n - i
decreasing_by
  omega

theorem tailWindows_fsts (n i : Nat) :
    (tailWindows n i).map Prod.fst =
      (List.range (tailWindows n i).length).map (fun k => i + 1000 * k) := by
  by_cases h : i < n
  · rw [tailWindows_cons h]
    simp only [List.map_cons, List.length_cons]
    rw [tailWindows_fsts n (i + 1000), List.range_succ_eq_map]
    simp only [List.map_cons, List.map_map]
    refine List.cons_eq_cons.mpr ⟨by omega, ?_⟩
    apply List.map_congr_left
    intro k _
    simp only [Function.comp_apply]
    omega
  · rw [tailWindows_nil h]
    rfl
termination_by n - i
decreasing_by
  omega

/-- C2: for `N ≥ 1` rows, the chunk table built by `getChunk` is the
image over the position windows of the id lookups; the windows
partition positions `0 … N-1` in order with no gaps or overlaps; window
0 covers `min(20, N)` positions; every later window except possibly the
last covers exactly 1000 positions; and the later windows start at
position 20 and advance by 1000. -/
theorem chunkPartition (data : List Int) (h1 : data ≠ []) :
    buildChunkTable data =
      (posWindows data.length).map (fun w => (data.getD w.1 0, data.getD w.2 0)) ∧
    (posWindows data.length).flatMap (fun w => List.range' w.1 (winSize w)) =
      List.range data.length ∧
    winSize ((posWindows data.length).headD (0, 0)) = min 20 data.length ∧
    (∀ w ∈ (posWindows data.length).tail.dropLast, winSize w = 1000) ∧
    (posWindows data.length).tail.map Prod.fst =
      (List.range (posWindows data.length).tail.length).map (fun k => 20 + 1000 * k) := by
  have hn : 0 < data.length := List.length_pos.2 h1
  refine ⟨?_, ?_, ?_, ?_, ?_⟩
  · unfold buildChunkTable posWindows
    simp only [List.map_cons]
    rw [tailChunk_eq_map]
  · unfold posWindows
    rw [List.flatMap_cons, tailWindows_flat, List.range_eq_range']
    by_cases h20 : 20 < data.length
    · rw [if_pos h20]
      have hw : winSize (0, 19) = 20 := by
        simp [winSize]
      have happ := List.range'_append 0 20 (data.length - 20) 1
      simp only [Nat.one_mul, Nat.zero_add] at happ
      rw [hw, happ]
      congr 1
      omega
    · rw [if_neg h20]
      have hz : data.length - 20 = 0 := by omega
      have hw : winSize (0, data.length - 1) = data.length := by
        simp only [winSize]
        omega
      rw [hz, hw]
      simp
  · unfold posWindows
    simp only [List.headD_cons]
    by_cases h20 : 20 < data.length
    · rw [if_pos h20]
      simp only [winSize]
      omega
    · rw [if_neg h20]
      simp only [winSize]
      omega
  · unfold posWindows
    simp only [List.tail_cons]
    exact tailWindows_sizes data.length 20
  · unfold posWindows
    simp only [List.tail_cons]
    exact tailWindows_fsts data.length 20

/-- Witness for C2 at the five-row id list `[1, 2, 3, 4, 5]`. -/
theorem chunkPartition_witness :
    ([1, 2, 3, 4, 5] : List Int) ≠ [] ∧
    (buildChunkTable [1, 2, 3, 4, 5] =
      (posWindows (5 : Nat)).map
        (fun w => (([1, 2, 3, 4, 5] : List Int).getD w.1 0, ([1, 2, 3, 4, 5] : List Int).getD w.2 0)) ∧
    (posWindows (5 : Nat)).flatMap (fun w => List.range' w.1 (winSize w)) = List.range 5 ∧
    winSize ((posWindows (5 : Nat)).headD (0, 0)) = min 20 5 ∧
    (∀ w ∈ (posWindows (5 : Nat)).tail.dropLast, winSize w = 1000) ∧
    (posWindows (5 : Nat)).tail.map Prod.fst =
      (List.range (posWindows (5 : Nat)).tail.length).map (fun k => 20 + 1000 * k)) :=
  ⟨by decide, chunkPartition [1, 2, 3, 4, 5] (by decide)⟩

/-- C8: a select whose chunk selector is the count-only sentinel `'?'`
issues exactly the id-list-building query on a cache miss and no query
at all on a cache hit, returns only the window count, and never issues
the assembled data query. -/
theorem chunkCountOnly (p : QP) (cache : String → Option (List (Int × Int)))
    (idRows : List Int) (hc : p.chunk = some ChunkSel.q) (hrows : idRows ≠ []) :
    (∃ t, (select true (some p) cache idRows).1 = Except.ok (SelectResult.totalOnly t)) ∧
    (select true (some p) cache idRows).2 =
      (match cache ("chunk" ++ (selectSqlCore p).1) with
        | none => [(selectSqlCore p).1]
        | some _ => []) := by
  have hlen : ¬ idRows.length = 0 := fun h => hrows (List.eq_nil_of_length_eq_zero h)
  cases hcache : cache ("chunk" ++ (selectSqlCore p).1) with
  | some tbl =>
    simp [select, hc, getChunk, hcache, chunkLookup]
  | none =>
    simp [select, hc, getChunk, hcache, hlen, chunkLookup]

/-- Witness for C8: a count-only chunk select over table `t` with a
cold cache and a single-row id list. -/
theorem chunkCountOnly_witness :
    ({ from_ := StrOrList.one "t", chunk := some ChunkSel.q } : QP).chunk = some ChunkSel.q ∧
    ([1] : List Int) ≠ [] ∧
    ((∃ t, (select true (some { from_ := StrOrList.one "t", chunk := some ChunkSel.q })
        (fun _ => none) [1]).1 = Except.ok (SelectResult.totalOnly t)) ∧
    (select true (some { from_ := StrOrList.one "t", chunk := some ChunkSel.q })
        (fun _ => none) [1]).2 =
      (match (fun (_ : String) => none : String → Option (List (Int × Int)))
          ("chunk" ++ (selectSqlCore { from_ := StrOrList.one "t", chunk := some ChunkSel.q }).1) with
        | none => [(selectSqlCore { from_ := StrOrList.one "t", chunk := some ChunkSel.q }).1]
        | some _ => [])) :=
  ⟨rfl, by decide,
    chunkCountOnly { from_ := StrOrList.one "t", chunk := some ChunkSel.q }
      (fun _ => none) [1] rfl (by decide)⟩

end MariaDB
